import Mathlib

/-!
Verification of the SnapSync backup engine core against its specification.

The Go source is shallowly embedded: byte slices become `List Nat`, the
SHA-256 hex digest (an external library call) becomes an abstract parameter
`H : List Nat → String`, filesystem effects become explicit state passing
over finite maps, and fallible operations return `Except`.
-/

namespace SnapSync

/-- Error kinds surfaced by the store layer.  The Go code produces wrapped
`fmt.Errorf` strings; the spec classifies them as NotFound / Corruption / IO.
Context wrapping of messages is not modelled, only the error kind. -/
inductive SErr where
  | notFound (hash : String)
  | corruption (hash : String)
  | ioMsg (s : String)
deriving DecidableEq, Repr

/-! ## CAS (internal/store/cas.go)

The on-disk object files live at `objects/<h[:2]>/<h>`; the path is a
function of the digest alone and distinct digests give distinct paths,
so the disk is modelled as a map from hex digest to file contents.
`refCount` is the in-memory reference-count map (`map[string]int`). -/

structure CASState where
  disk : String → Option (List Nat)
  refCount : String → Option Nat

/-- `NewCAS`: fresh store, empty objects directory, empty refcount map. -/
def newCAS : CASState := ⟨fun _ => none, fun _ => none⟩

/-- `CAS.Has`: stat of the object path. -/
def CAS.has (s : CASState) (hash : String) : Bool :=
  (s.disk hash).isSome

/-- `CAS.Put`: digest the data; if present, bump the refcount; else write the
object file (the oracle `wErr` models an `os.MkdirAll`/`os.WriteFile`
failure, in which case nothing is written) and set the refcount to 1.
A missing refcount key incremented in Go yields 1, hence `getD 0 + 1`. -/
def CAS.put (H : List Nat → String) (wErr : List Nat → Option SErr)
    (s : CASState) (data : List Nat) : Except SErr String × CASState :=
  let hashStr := H data
  if CAS.has s hashStr then
    (.ok hashStr,
      { s with refCount := fun k =>
          if k = hashStr then some ((s.refCount hashStr).getD 0 + 1) else s.refCount k })
  else
    match wErr data with
    | some e => (.error e, s)
    | none =>
      (.ok hashStr,
        { disk := fun k => if k = hashStr then some data else s.disk k,
          refCount := fun k => if k = hashStr then some 1 else s.refCount k })

/-- `CAS.Get`: read the object file (NotFound when absent), verify that the
digest of the bytes read equals the requested digest (Corruption when not),
and only then return the bytes. -/
def CAS.get (H : List Nat → String) (s : CASState) (hash : String) :
    Except SErr (List Nat) :=
  match s.disk hash with
  | none => .error (.notFound hash)
  | some data => if H data = hash then .ok data else .error (.corruption hash)

/-- `os.Remove` on the object path: deletes the file, or fails with a
not-exist error when there is no file. -/
def osRemove (s : CASState) (hash : String) : Except SErr Unit × CASState :=
  match s.disk hash with
  | some _ =>
    (.ok (), { s with disk := fun k => if k = hash then none else s.disk k })
  | none => (.error (.notFound hash), s)

/-- `CAS.Delete`: while the refcount is above 1 just decrement it; at 1 the
map entry is removed and the file is removed; with no refcount entry the
file is removed directly (fresh-open semantics). -/
def CAS.delete (s : CASState) (hash : String) : Except SErr Unit × CASState :=
  match s.refCount hash with
  | some count =>
    if count > 1 then
      (.ok (), { s with refCount := fun k =>
        if k = hash then some (count - 1) else s.refCount k })
    else
      osRemove { s with refCount := fun k =>
        if k = hash then none else s.refCount k } hash
  | none => osRemove s hash

/-- C5: starting from a fresh store, Put X twice returns the digest of X both
times and leaves exactly one object (at that digest, and nothing else on
disk); two Deletes then remove the object from disk, and a third Delete
fails with NotFound. -/
theorem c5_cas_idempotence (H : List Nat → String) (X : List Nat) :
    let wE : List Nat → Option SErr := fun _ => none
    let r1 := CAS.put H wE newCAS X
    let r2 := CAS.put H wE r1.2 X
    let d1 := CAS.delete r2.2 (H X)
    let d2 := CAS.delete d1.2 (H X)
    let d3 := CAS.delete d2.2 (H X)
    r1.1 = .ok (H X) ∧ r2.1 = .ok (H X) ∧
    r2.2.disk = (fun k => if k = H X then some X else none) ∧
    d1.1 = .ok () ∧ d1.2.disk (H X) = some X ∧
    d2.1 = .ok () ∧ d2.2.disk (H X) = none ∧
    d3.1 = .error (.notFound (H X)) := by
  simp only [CAS.put, CAS.has, newCAS, CAS.delete, osRemove]
  simp

/-- C6: Get returns bytes exactly when the object file holds bytes whose
digest is the requested one; it fails NotFound exactly when no object file
exists, and Corruption exactly when the stored bytes hash to another value. -/
theorem c6_get_integrity (H : List Nat → String) (s : CASState) (hash : String) :
    ((∀ b, CAS.get H s hash = .ok b ↔ s.disk hash = some b ∧ H b = hash) ∧
     (CAS.get H s hash = .error (.notFound hash) ↔ s.disk hash = none) ∧
     (CAS.get H s hash = .error (.corruption hash) ↔
       ∃ b, s.disk hash = some b ∧ H b ≠ hash)) := by
  unfold CAS.get
  rcases hd : s.disk hash with _ | data
  · simp
  · by_cases hh : H data = hash <;> simp_all

/-- C10: Put of data whose object already exists leaves the disk map entirely
unchanged; only the in-memory refcount entry for that digest is incremented
(all other refcount entries are untouched). -/
theorem c10_put_frame (H : List Nat → String) (wErr : List Nat → Option SErr)
    (s : CASState) (X : List Nat) (h : (s.disk (H X)).isSome = true) :
    (CAS.put H wErr s X).1 = .ok (H X) ∧
    (CAS.put H wErr s X).2.disk = s.disk ∧
    (CAS.put H wErr s X).2.refCount =
      (fun k => if k = H X then some ((s.refCount (H X)).getD 0 + 1)
                else s.refCount k) := by
  simp [CAS.put, CAS.has, h]

/-- A concrete digest function for witnesses. -/
def constH : List Nat → String := fun _ => "h0"

/-- A concrete store holding one object addressed "h0". -/
def oneObjStore : CASState :=
  ⟨fun k => if k = "h0" then some [1] else none, fun _ => none⟩

/-- Witness for C10 at a concrete store that already holds the object. -/
theorem c10_put_frame_witness :
    (CAS.put constH (fun _ => none) oneObjStore [1]).1 = .ok (constH [1]) ∧
    (CAS.put constH (fun _ => none) oneObjStore [1]).2.disk = oneObjStore.disk ∧
    (CAS.put constH (fun _ => none) oneObjStore [1]).2.refCount =
      (fun k => if k = constH [1] then
          some ((oneObjStore.refCount (constH [1])).getD 0 + 1)
        else oneObjStore.refCount k) :=
  c10_put_frame constH (fun _ => none) oneObjStore [1] (by decide)

/-! ## Chunker (internal/chunker, concatenated into internal/scanner/scanner.go)

The rabinkarp64 rolling hash is an external library; it is abstracted as a
state type `σ` with `init` (Reset followed by Write of the 64-byte window),
`roll`, and `sum`.  Bytes are `Nat`; the claims hold for every hasher. -/

structure Chunk where
  hash : String
  size : Nat
  offset : Nat
  data : List Nat
deriving DecidableEq, Repr

structure RollingHash (σ : Type) where
  init : List Nat → σ
  roll : σ → Nat → σ
  sum : σ → Nat

/-- The Chunker struct: `minSize`, `avgSize`, `maxSize`, `mask`. -/
structure ChunkerCfg where
  minSize : Nat
  avgSize : Nat
  maxSize : Nat
  mask : Nat
deriving DecidableEq, Repr

/-- `chunker.New`: non-positive sizes are replaced by the defaults
(512 KiB / 1 MiB / 4 MiB); `mask := avgSize - 1`. -/
def Chunker.new (minSize avgSize maxSize : Nat) : ChunkerCfg :=
  let m := if minSize = 0 then 512 * 1024 else minSize
  let a := if avgSize = 0 then 1024 * 1024 else avgSize
  let x := if maxSize = 0 then 4 * 1024 * 1024 else maxSize
  ⟨m, a, x, a - 1⟩

/-- `createChunk`: digest of the plaintext bytes, length, offset, owned copy. -/
def createChunk (H : List Nat → String) (data : List Nat) (offset : Nat) : Chunk :=
  ⟨H data, data.length, offset, data⟩

/-- The mutable state of `Chunker.Chunk`'s loop. -/
structure ChunkState (σ : Type) where
  chunks : List Chunk
  offset : Nat
  currentChunk : List Nat
  window : List Nat
  windowIdx : Nat
  windowFull : Bool
  hstate : σ

/-- The boundary test of the byte loop: split when the chunk has reached
`maxSize`, or at `hash & mask == 0` once it has reached `minSize`. -/
def shouldSplitAt (cfg : ChunkerCfg) (hashVal : Nat) (chunkLen : Nat) : Bool :=
  if chunkLen ≥ cfg.maxSize then true
  else if chunkLen ≥ cfg.minSize then hashVal &&& cfg.mask == 0
  else false

theorem shouldSplitAt_true_min (cfg : ChunkerCfg) (v l : Nat)
    (hmm : cfg.minSize ≤ cfg.maxSize) (h : shouldSplitAt cfg v l = true) :
    cfg.minSize ≤ l := by
  unfold shouldSplitAt at h
  by_cases h1 : l ≥ cfg.maxSize
  · omega
  · rw [if_neg h1] at h
    by_cases h2 : l ≥ cfg.minSize
    · exact h2
    · rw [if_neg h2] at h; cases h

theorem shouldSplitAt_false_max (cfg : ChunkerCfg) (v l : Nat)
    (h : shouldSplitAt cfg v l = false) : l < cfg.maxSize := by
  unfold shouldSplitAt at h
  by_cases h1 : l ≥ cfg.maxSize
  · rw [if_pos h1] at h; cases h
  · omega

/-- One iteration of the inner byte loop of `Chunker.Chunk`: append the byte,
update the 64-byte rolling window and the rolling hash, then test for a
boundary; at a split the current chunk is emitted, the open chunk is cleared
and the hasher is reset and rewritten with the window. -/
def chunkStep {σ : Type} (cfg : ChunkerCfg) (rh : RollingHash σ)
    (H : List Nat → String) (st : ChunkState σ) (b : Nat) : ChunkState σ :=
  let currentChunk := st.currentChunk ++ [b]
  let oldByte := st.window.getD st.windowIdx 0
  let window := st.window.set st.windowIdx b
  let windowIdx := (st.windowIdx + 1) % window.length
  let windowFull := st.windowFull || (windowIdx == 0)
  let hstate := if windowFull then rh.roll st.hstate oldByte else st.hstate
  let chunkLen := currentChunk.length
  if shouldSplitAt cfg (rh.sum hstate) chunkLen then
    { chunks := st.chunks ++ [createChunk H currentChunk st.offset],
      offset := st.offset + chunkLen,
      currentChunk := [],
      window := window, windowIdx := 0, windowFull := false,
      hstate := rh.init window }
  else
    { st with currentChunk := currentChunk, window := window,
              windowIdx := windowIdx, windowFull := windowFull, hstate := hstate }

/-- Initial loop state: 64-byte zero window written into a fresh hasher. -/
def chunkInitState {σ : Type} (rh : RollingHash σ) : ChunkState σ :=
  ⟨[], 0, [], List.replicate 64 0, 0, false, rh.init (List.replicate 64 0)⟩

/-- End of input: remaining bytes form a final chunk when non-empty. -/
def chunkFinish {σ : Type} (H : List Nat → String) (st : ChunkState σ) : List Chunk :=
  st.chunks ++ (if st.currentChunk.isEmpty then []
                else [createChunk H st.currentChunk st.offset])

/-- `Chunker.Chunk` applied to the whole input stream. -/
def chunkBytes {σ : Type} (cfg : ChunkerCfg) (rh : RollingHash σ)
    (H : List Nat → String) (input : List Nat) : List Chunk :=
  chunkFinish H (input.foldl (chunkStep cfg rh H) (chunkInitState rh))

/-- `Chunker.Chunk` as executed against an `io.Reader` that delivers the
stream as the successive (possibly empty) reads in `reads`; the byte loop
runs over each read in order. -/
def chunkReads {σ : Type} (cfg : ChunkerCfg) (rh : RollingHash σ)
    (H : List Nat → String) (reads : List (List Nat)) : List Chunk :=
  chunkFinish H
    (reads.foldl (fun st r => r.foldl (chunkStep cfg rh H) st) (chunkInitState rh))

/-- Plaintext covered by a chunker state: emitted chunks then the open chunk. -/
def coveredBytes {σ : Type} (st : ChunkState σ) : List Nat :=
  (st.chunks.map Chunk.data).join ++ st.currentChunk

/-- Either a boundary is hit (the open chunk is emitted and cleared)
or it is not (the open chunk grows by one byte); in both cases the boundary
test was applied at the grown length. -/
theorem chunkStep_cases {σ : Type} (cfg : ChunkerCfg) (rh : RollingHash σ)
    (H : List Nat → String) (st : ChunkState σ) (b : Nat) :
    (∃ v, shouldSplitAt cfg v (st.currentChunk ++ [b]).length = true ∧
      (chunkStep cfg rh H st b).chunks
        = st.chunks ++ [createChunk H (st.currentChunk ++ [b]) st.offset] ∧
      (chunkStep cfg rh H st b).currentChunk = []) ∨
    (∃ v, shouldSplitAt cfg v (st.currentChunk ++ [b]).length = false ∧
      (chunkStep cfg rh H st b).chunks = st.chunks ∧
      (chunkStep cfg rh H st b).currentChunk = st.currentChunk ++ [b]) := by
  simp only [chunkStep]
  split <;> split
  · rename_i hs; exact Or.inl ⟨_, hs, rfl, rfl⟩
  · rename_i hs; exact Or.inr ⟨_, by simpa using hs, rfl, rfl⟩
  · rename_i hs; exact Or.inl ⟨_, hs, rfl, rfl⟩
  · rename_i hs; exact Or.inr ⟨_, by simpa using hs, rfl, rfl⟩

theorem chunkStep_covered {σ : Type} (cfg : ChunkerCfg) (rh : RollingHash σ)
    (H : List Nat → String) (st : ChunkState σ) (b : Nat) :
    coveredBytes (chunkStep cfg rh H st b) = coveredBytes st ++ [b] := by
  rcases chunkStep_cases cfg rh H st b with ⟨v, hs, h1, h2⟩ | ⟨v, hs, h1, h2⟩ <;>
    simp [coveredBytes, h1, h2, createChunk]

theorem chunkFoldl_covered {σ : Type} (cfg : ChunkerCfg) (rh : RollingHash σ)
    (H : List Nat → String) (l : List Nat) (st : ChunkState σ) :
    coveredBytes (l.foldl (chunkStep cfg rh H) st) = coveredBytes st ++ l := by
  induction l generalizing st with
  | nil => simp
  | cons a t ih =>
    simp only [List.foldl_cons, ih, chunkStep_covered, List.append_assoc,
      List.singleton_append]

/-- Loop invariant for the size bounds: every emitted chunk has
`minSize ≤ |data| ≤ maxSize` and matching `size`, and the open chunk is
strictly below `maxSize`. -/
def SizeInv (cfg : ChunkerCfg) {σ : Type} (st : ChunkState σ) : Prop :=
  (∀ c ∈ st.chunks,
      cfg.minSize ≤ c.data.length ∧ c.data.length ≤ cfg.maxSize ∧
      c.size = c.data.length) ∧
  st.currentChunk.length < cfg.maxSize

theorem chunkStep_sizeInv {σ : Type} (cfg : ChunkerCfg) (rh : RollingHash σ)
    (H : List Nat → String) (hminmax : cfg.minSize ≤ cfg.maxSize)
    (st : ChunkState σ) (b : Nat) (hinv : SizeInv cfg st) :
    SizeInv cfg (chunkStep cfg rh H st b) := by
  obtain ⟨hall, hcur⟩ := hinv
  rcases chunkStep_cases cfg rh H st b with ⟨v, hs, h1, h2⟩ | ⟨v, hs, h1, h2⟩
  · have hlen := shouldSplitAt_true_min cfg v _ hminmax hs
    simp only [List.length_append, List.length_cons, List.length_nil] at hlen
    refine ⟨?_, ?_⟩
    · rw [h1]
      intro c hc
      rcases List.mem_append.mp hc with hc | hc
      · exact hall c hc
      · rw [List.mem_singleton] at hc
        subst hc
        simp only [createChunk, List.length_append, List.length_cons,
          List.length_nil]
        exact ⟨by omega, by omega, trivial⟩
    · rw [h2]
      simp only [List.length_nil]
      omega
  · have hlt := shouldSplitAt_false_max cfg v _ hs
    simp only [List.length_append, List.length_cons, List.length_nil] at hlt
    refine ⟨h1 ▸ hall, ?_⟩
    rw [h2]
    simp only [List.length_append, List.length_cons, List.length_nil]
    omega

theorem chunkFoldl_sizeInv {σ : Type} (cfg : ChunkerCfg) (rh : RollingHash σ)
    (H : List Nat → String) (hminmax : cfg.minSize ≤ cfg.maxSize)
    (l : List Nat) (st : ChunkState σ) (hinv : SizeInv cfg st) :
    SizeInv cfg (l.foldl (chunkStep cfg rh H) st) := by
  induction l generalizing st with
  | nil => exact hinv
  | cons a t ih =>
    exact ih _ (chunkStep_sizeInv cfg rh H hminmax st a hinv)

/-- C4: for `0 < min ≤ avg ≤ max`, the chunks of `Chunker.Chunk` concatenate
back to the input; every chunk is non-empty and at most `max_size` long, and
every chunk except possibly the final one is at least `min_size` long. -/
theorem c4_chunk_coverage {σ : Type} (rh : RollingHash σ)
    (H : List Nat → String) (minSize avgSize maxSize : Nat) (input : List Nat)
    (hmin : 0 < minSize) (hma : minSize ≤ avgSize) (ham : avgSize ≤ maxSize) :
    let cfg := Chunker.new minSize avgSize maxSize
    let cs := chunkBytes cfg rh H input
    ((cs.map Chunk.data).join = input ∧
     (∀ c ∈ cs, 1 ≤ c.data.length ∧ c.data.length ≤ maxSize ∧
        c.size = c.data.length) ∧
     (∀ c ∈ cs.dropLast, minSize ≤ c.data.length)) := by
  intro cfg cs
  have hcfg_min : cfg.minSize = minSize := by
    simp only [cfg, Chunker.new]
    rw [if_neg (by omega)]
  have hcfg_max : cfg.maxSize = maxSize := by
    simp only [cfg, Chunker.new]
    rw [if_neg (by omega)]
  have hmm : cfg.minSize ≤ cfg.maxSize := by rw [hcfg_min, hcfg_max]; omega
  set st := input.foldl (chunkStep cfg rh H) (chunkInitState rh) with hst
  have hinv : SizeInv cfg st := by
    refine chunkFoldl_sizeInv cfg rh H hmm input _ ⟨by simp [chunkInitState], ?_⟩
    simp only [chunkInitState, List.length_nil]
    omega
  have hcov : coveredBytes st = input := by
    rw [hst, chunkFoldl_covered]
    simp [coveredBytes, chunkInitState]
  obtain ⟨hall, hcur⟩ := hinv
  have hcs : cs = st.chunks ++ (if st.currentChunk.isEmpty then []
      else [createChunk H st.currentChunk st.offset]) := rfl
  refine ⟨?_, ?_, ?_⟩
  · rw [hcs]
    by_cases he : st.currentChunk = []
    · rw [if_pos (by simp [he]), List.append_nil, ← hcov]
      simp [coveredBytes, he]
    · rw [if_neg (by simp [he]), ← hcov]
      simp [coveredBytes, createChunk]
  · intro c hc
    rw [hcs, List.mem_append] at hc
    rcases hc with hc | hc
    · obtain ⟨h1, h2, h3⟩ := hall c hc
      rw [hcfg_min] at h1
      rw [hcfg_max] at h2
      exact ⟨by omega, h2, h3⟩
    · by_cases he : st.currentChunk = []
      · rw [if_pos (by simp [he])] at hc
        cases hc
      · rw [if_neg (by simp [he]), List.mem_singleton] at hc
        subst hc
        simp only [createChunk]
        have hne : st.currentChunk.length ≠ 0 := by
          simpa [List.length_eq_zero] using he
        rw [hcfg_max] at hcur
        exact ⟨by omega, by omega, trivial⟩
  · intro c hc
    rw [hcs] at hc
    by_cases he : st.currentChunk = []
    · rw [if_pos (by simp [he]), List.append_nil] at hc
      have := hall c (List.dropLast_subset _ hc)
      rw [hcfg_min] at this
      exact this.1
    · rw [if_neg (by simp [he]), List.dropLast_concat] at hc
      have := hall c hc
      rw [hcfg_min] at this
      exact this.1

/-- C8: the emitted chunk sequence (offsets, sizes, digests, bytes) depends
only on the delivered byte stream: two reader runs whose reads concatenate
to the same bytes produce identical chunk lists. -/
theorem c8_chunker_determinism {σ : Type} (cfg : ChunkerCfg)
    (rh : RollingHash σ) (H : List Nat → String)
    (reads₁ reads₂ : List (List Nat)) (h : reads₁.join = reads₂.join) :
    chunkReads cfg rh H reads₁ = chunkReads cfg rh H reads₂ := by
  have aux : ∀ (rs : List (List Nat)) (st : ChunkState σ),
      rs.foldl (fun st r => r.foldl (chunkStep cfg rh H) st) st =
        rs.join.foldl (chunkStep cfg rh H) st := by
    intro rs
    induction rs with
    | nil => intro st; simp
    | cons r t ih =>
      intro st
      simp only [List.foldl_cons, List.join_cons, List.foldl_append]
      exact ih _
  have key : ∀ (rs : List (List Nat)),
      chunkReads cfg rh H rs = chunkBytes cfg rh H rs.join := by
    intro rs
    unfold chunkReads chunkBytes
    rw [aux]
  rw [key, key, h]

/-- A concrete rolling hash used to instantiate witnesses. -/
def trivialRH : RollingHash Unit := ⟨fun _ => (), fun s _ => s, fun _ => 0⟩

/-- Witness for C4 at concrete parameters (1, 1, 2) and input [5, 6, 7]. -/
theorem c4_chunk_coverage_witness :
    let cfg := Chunker.new 1 1 2
    let cs := chunkBytes cfg trivialRH constH [5, 6, 7]
    ((cs.map Chunk.data).join = [5, 6, 7] ∧
     (∀ c ∈ cs, 1 ≤ c.data.length ∧ c.data.length ≤ 2 ∧
        c.size = c.data.length) ∧
     (∀ c ∈ cs.dropLast, 1 ≤ c.data.length)) :=
  c4_chunk_coverage trivialRH constH 1 1 2 [5, 6, 7]
    (by decide) (by decide) (by decide)

/-- Witness for C8: the same two bytes delivered as two reads or as one
single read produce the same chunk sequence. -/
theorem c8_chunker_determinism_witness :
    chunkReads (Chunker.new 1 1 2) trivialRH constH [[1], [2]] =
      chunkReads (Chunker.new 1 1 2) trivialRH constH [[1, 2]] :=
  c8_chunker_determinism (Chunker.new 1 1 2) trivialRH constH
    [[1], [2]] [[1, 2]] (by decide)

/-! ## Go path/filepath.Match (stdlib glob used by scanner and restorer)

Embedded over `List Char` on unix (`Separator` is the slash, backslash
escaping enabled); ASCII byte/rune distinctions do not arise.  `none`
models `ErrBadPattern`; every call site in the repository discards the
error, so a bad pattern counts as no match.  The loops become fuel
recursion; callers size the fuel so that it cannot run out (each loop
iteration consumes at least one pattern byte). -/

/-- `getEsc`: one (possibly backslash-escaped) character of a character
class; fails on an empty class position, a stray dash or bracket, and on
a class that would end immediately after the character. -/
def getEsc : List Char → Option (Char × List Char)
  | [] => none
  | '-' :: _ => none
  | ']' :: _ => none
  | '\\' :: rest =>
    match rest with
    | [] => none
    | r :: nchunk => if nchunk.isEmpty then none else some (r, nchunk)
  | c :: nchunk => if nchunk.isEmpty then none else some (c, nchunk)

/-- The range-parsing loop of the character-class case of `matchChunk`:
consume `lo` or `lo-hi` ranges until the closing bracket, accumulating
whether the rune `r` fell in any range. -/
def parseRanges (r : Char) : Nat → List Char → Nat → Bool → Option (Bool × List Char)
  | 0, _, _, _ => none
  | _ + 1, ']' :: rest, nrange, m =>
    if nrange > 0 then some (m, rest) else none
  | fuel + 1, chunk, nrange, m =>
    match getEsc chunk with
    | none => none
    | some (lo, chunk1) =>
      match chunk1 with
      | '-' :: chunk2 =>
        match getEsc chunk2 with
        | none => none
        | some (hi, chunk3) =>
          parseRanges r fuel chunk3 (nrange + 1)
            (m || (decide (lo ≤ r) && decide (r ≤ hi)))
      | _ =>
        parseRanges r fuel chunk1 (nrange + 1)
          (m || (decide (lo ≤ r) && decide (r ≤ lo)))

/-- `matchChunk`: match a star-free pattern segment at the head of `s`,
returning the unconsumed tail of `s` and success; the `failed` flag keeps
scanning the segment for bad patterns after a mismatch. -/
def matchChunk : Nat → List Char → List Char → Bool → Option (List Char × Bool)
  | 0, _, _, _ => none
  | _ + 1, [], s, failed => if failed then some ([], false) else some (s, true)
  | fuel + 1, c :: chunkRest, s, failed0 =>
    let failed := failed0 || s.isEmpty
    if c = '[' then
      let r := if failed then Char.ofNat 0 else s.headD (Char.ofNat 0)
      let s1 := if failed then s else s.tail
      let negres : Bool × List Char :=
        match chunkRest with
        | '^' :: t => (true, t)
        | _ => (false, chunkRest)
      match parseRanges r (negres.2.length + 1) negres.2 0 false with
      | none => none
      | some (m, rest) => matchChunk fuel rest s1 (failed || (m == negres.1))
    else if c = '?' then
      if failed then matchChunk fuel chunkRest s failed
      else matchChunk fuel chunkRest s.tail
        (failed || (s.headD (Char.ofNat 0) == '/'))
    else if c = '\\' then
      match chunkRest with
      | [] => none
      | c2 :: rest2 =>
        if failed then matchChunk fuel rest2 s failed
        else matchChunk fuel rest2 s.tail
          (failed || !(c2 == s.headD (Char.ofNat 0)))
    else
      if failed then matchChunk fuel chunkRest s failed
      else matchChunk fuel chunkRest s.tail
        (failed || !(c == s.headD (Char.ofNat 0)))

/-- Leading-star stripping of `scanChunk`. -/
def stripStars : List Char → Bool × List Char
  | '*' :: rest => (true, (stripStars rest).2)
  | l => (false, l)

/-- The scanning loop of `scanChunk`: collect the segment up to the next
star that is outside a character class, keeping backslash pairs together. -/
def scanChunkSplit (inrange : Bool) : List Char → List Char × List Char
  | [] => ([], [])
  | c :: rest =>
    if c == '*' && !inrange then ([], c :: rest)
    else if c == '\\' then
      match rest with
      | [] => ([c], [])
      | c2 :: rest2 =>
        let pr := scanChunkSplit inrange rest2
        (c :: c2 :: pr.1, pr.2)
    else
      let inrange2 := if c == '[' then true else if c == ']' then false else inrange
      let pr := scanChunkSplit inrange2 rest
      (c :: pr.1, pr.2)

/-- `scanChunk`: strip leading stars, then split off the next segment. -/
def scanChunk (pattern : List Char) : Bool × List Char × List Char :=
  let sp := stripStars pattern
  let cr := scanChunkSplit false sp.2
  (sp.1, cr.1, cr.2)

/-- The star-retry loop of `Match`: slide the segment start over the name,
never across a separator; `some t` is the remaining name to continue with. -/
def starSearch (chunk rest : List Char) : List Char → Option (List Char)
  | [] => none
  | c :: nmRest =>
    if c == '/' then none
    else
      match matchChunk (chunk.length + 1) chunk nmRest false with
      | none => none
      | some (t, true) =>
        if rest.isEmpty && !t.isEmpty then starSearch chunk rest nmRest
        else some t
      | some (_, false) => starSearch chunk rest nmRest

/-- `filepath.Match`'s pattern loop (the `matched` result; `ErrBadPattern`
collapses to false, as at every call site in the repository). -/
def goMatchL : Nat → List Char → List Char → Bool
  | 0, _, _ => false
  | fuel + 1, pattern, name =>
    match pattern with
    | [] => name.isEmpty
    | _ :: _ =>
      let scr := scanChunk pattern
      let star := scr.1
      let chunk := scr.2.1
      let rest := scr.2.2
      if star && chunk.isEmpty then !(name.contains '/')
      else
        match matchChunk (chunk.length + 1) chunk name false with
        | none => false
        | some (t, ok) =>
          if ok && (t.isEmpty || !rest.isEmpty) then goMatchL fuel rest t
          else if star then
            match starSearch chunk rest name with
            | some t2 => goMatchL fuel rest t2
            | none => false
          else false

/-- `filepath.Match(pattern, name)` with the error discarded. -/
def goMatch (pattern name : String) : Bool :=
  goMatchL (pattern.length + 1) pattern.toList name.toList

def isPrefixL : List Char → List Char → Bool
  | [], _ => true
  | _ :: _, [] => false
  | a :: as, b :: bs => a == b && isPrefixL as bs

def containsL (sub : List Char) : List Char → Bool
  | [] => sub.isEmpty
  | c :: rest => isPrefixL sub (c :: rest) || containsL sub rest

/-- `strings.Contains(s, sub)`. -/
def goContains (s sub : String) : Bool :=
  containsL sub.toList s.toList

/-! ## Scanner (internal/scanner/scanner.go) -/

/-- `Scanner.shouldExclude`: exact name equality, then `filepath.Match`
against the base name, then substring containment in the source-relative
path; any pattern hit excludes the entry. -/
def shouldExclude (exclusions : List String) (relPath name : String) : Bool :=
  exclusions.any fun pattern =>
    pattern == name || goMatch pattern name || goContains relPath pattern

/-- A filesystem subtree as presented to `filepath.Walk`. -/
inductive FsEntry where
  | file (name : String) (size : Nat)
  | dir (name : String) (children : List FsEntry)

def FsEntry.name : FsEntry → String
  | .file n _ => n
  | .dir n _ => n

/-- `filepath.Rel(source, path)` along the walk: "." at the root, then the
entry names joined with slashes. -/
def joinRel (p n : String) : String := if p = "." then n else p ++ "/" ++ n

mutual
/-- `Scanner.Scan`'s walk at one entry: an excluded file is dropped, an
excluded directory is pruned (`filepath.SkipDir`); otherwise the node is
recorded under its relative path and the walk descends. -/
def walkEntry (excl : List String) (rp : String) (e : FsEntry) :
    List (String × FsEntry) :=
  match e with
  | .file n sz =>
    if shouldExclude excl rp n then [] else [(rp, .file n sz)]
  | .dir n cs =>
    if shouldExclude excl rp n then []
    else (rp, .dir n cs) :: walkChildren excl rp cs

def walkChildren (excl : List String) (rp : String) (cs : List FsEntry) :
    List (String × FsEntry) :=
  match cs with
  | [] => []
  | c :: rest => walkEntry excl (joinRel rp c.name) c ++ walkChildren excl rp rest
end

/-- `Scanner.Scan(sourcePath)`: the walk starts at the root with
relative path ".". -/
def scanFiles (excl : List String) (root : FsEntry) : List (String × FsEntry) :=
  walkEntry excl "." root

theorem shouldExclude_iff (excl : List String) (rp n : String) :
    shouldExclude excl rp n = true ↔
      ∃ p ∈ excl, p = n ∨ goMatch p n = true ∨ goContains rp p = true := by
  unfold shouldExclude
  simp only [List.any_eq_true, Bool.or_eq_true, beq_iff_eq, or_assoc]

mutual
theorem walkEntry_not_excluded (excl : List String) (rp : String) (e : FsEntry) :
    ∀ pr ∈ walkEntry excl rp e, shouldExclude excl pr.1 pr.2.name = false := by
  match e with
  | .file n sz =>
    intro pr hpr
    unfold walkEntry at hpr
    split at hpr
    · cases hpr
    · rename_i hx
      rw [List.mem_singleton] at hpr
      subst hpr
      simpa [FsEntry.name] using hx
  | .dir n cs =>
    intro pr hpr
    unfold walkEntry at hpr
    split at hpr
    · cases hpr
    · rename_i hx
      rcases List.mem_cons.mp hpr with hpr | hpr
      · subst hpr
        simpa [FsEntry.name] using hx
      · exact walkChildren_not_excluded excl rp cs pr hpr

theorem walkChildren_not_excluded (excl : List String) (rp : String)
    (cs : List FsEntry) :
    ∀ pr ∈ walkChildren excl rp cs, shouldExclude excl pr.1 pr.2.name = false := by
  match cs with
  | [] =>
    intro pr hpr
    unfold walkChildren at hpr
    cases hpr
  | c :: rest =>
    intro pr hpr
    unfold walkChildren at hpr
    rcases List.mem_append.mp hpr with hpr | hpr
    · exact walkEntry_not_excluded excl (joinRel rp c.name) c pr hpr
    · exact walkChildren_not_excluded excl rp rest pr hpr
end

theorem walkEntry_pruned (excl : List String) (rp : String) (e : FsEntry)
    (h : shouldExclude excl rp e.name = true) : walkEntry excl rp e = [] := by
  cases e with
  | file n sz =>
    simp only [FsEntry.name] at h
    simp [walkEntry, h]
  | dir n cs =>
    simp only [FsEntry.name] at h
    simp [walkEntry, h]

/-- C3 (amended): an entry is excluded iff some pattern equals its base
name, or glob-matches its base name, or occurs as a substring of its
source-relative path; excluded entries never reach the resulting tree, and
an excluded directory prunes its whole subtree from the walk. -/
theorem c3_exclusion_semantics :
    (∀ (excl : List String) (rp n : String),
      shouldExclude excl rp n = true ↔
        ∃ p ∈ excl, p = n ∨ goMatch p n = true ∨ goContains rp p = true) ∧
    (∀ (excl : List String) (rp : String) (e : FsEntry),
      ∀ pr ∈ walkEntry excl rp e, shouldExclude excl pr.1 pr.2.name = false) ∧
    (∀ (excl : List String) (rp : String) (e : FsEntry),
      shouldExclude excl rp e.name = true → walkEntry excl rp e = []) :=
  ⟨shouldExclude_iff, walkEntry_not_excluded, walkEntry_pruned⟩

/-- Witness for C3 (amended) at a concrete excluded directory. -/
theorem c3_exclusion_semantics_witness :
    shouldExclude [".git"] "sub/.git" ".git" = true ∧
    walkEntry [".git"] "sub/.git" (.dir ".git" [.file "config" 1]) = [] :=
  ⟨by decide,
   c3_exclusion_semantics.2.2 [".git"] "sub/.git"
     (.dir ".git" [.file "config" 1]) (by decide)⟩

/-- The exclusion predicate in the words of the spec and of claim C3:
a pattern hit is a glob match of the base name, a glob match of the
source-relative path, or a substring occurrence in the path. -/
def specExcluded (exclusions : List String) (relPath name : String) : Bool :=
  exclusions.any fun pattern =>
    goMatch pattern name || goMatch pattern relPath || goContains relPath pattern

/-- C3 counterexample: the pattern "a/?" glob-matches the relative path
"a/b" (so the claim excludes the entry) but the code does not exclude it:
the code never glob-matches patterns against the relative path. -/
theorem c3_counterexample :
    specExcluded ["a/?"] "a/b" "b" = true ∧
    shouldExclude ["a/?"] "a/b" "b" = false := by
  constructor <;> decide

/-! ## Restorer pattern filters (internal/restore/restore.go) -/

/-- `filepath.Base` (unix): empty input gives ".", trailing slashes are
stripped, the part after the last slash remains, all-slashes gives "/". -/
def baseNameL (l : List Char) : List Char :=
  if l.isEmpty then ['.']
  else
    let l1 := (l.reverse.dropWhile (· == '/')).reverse
    let l2 := (l1.reverse.takeWhile (fun c => !(c == '/'))).reverse
    if l2.isEmpty then ['/'] else l2

def baseName (s : String) : String := String.mk (baseNameL s.toList)

/-- `strings.ReplaceAll(pattern, "**", "*")`, specialized to the only call
in `Restorer.matchPattern`: non-overlapping left-to-right replacement. -/
def replaceDoubleStar : List Char → List Char
  | '*' :: '*' :: rest => '*' :: replaceDoubleStar rest
  | c :: rest => c :: replaceDoubleStar rest
  | [] => []

/-- `Restorer.matchPattern`: glob against the path, then against the base
name, then — when the pattern contains "**" — with "**" collapsed to "*"
against the path. -/
def matchPattern (path pattern : String) : Bool :=
  if goMatch pattern path then true
  else if goMatch pattern (baseName path) then true
  else if goContains pattern "**" then
    goMatchL ((replaceDoubleStar pattern.toList).length + 1)
      (replaceDoubleStar pattern.toList) path.toList
  else false

/-- `Restorer.shouldRestore`: with no include patterns everything is
included; otherwise an include hit is required; any exclude hit rejects. -/
def shouldRestore (path : String) (includes excludes : List String) : Bool :=
  let included := includes.isEmpty || includes.any fun p => matchPattern path p
  if !included then false
  else !(excludes.any fun p => matchPattern path p)

/-- C9: a file is considered for restore iff the include list is empty or
some include pattern matches, and no exclude pattern matches; an exclude
hit rejects even when an include pattern also matches. -/
theorem c9_restore_filters (path : String) (includes excludes : List String) :
    shouldRestore path includes excludes = true ↔
      ((includes = [] ∨ ∃ p ∈ includes, matchPattern path p = true) ∧
       ∀ p ∈ excludes, matchPattern path p = false) := by
  unfold shouldRestore
  by_cases hinc : (includes.isEmpty || includes.any fun p => matchPattern path p) = true
  · rw [hinc]
    simp only [Bool.not_true, Bool.false_eq_true, if_false]
    rw [Bool.not_eq_true']
    rw [List.any_eq_false]
    simp only [Bool.or_eq_true, List.isEmpty_iff, List.any_eq_true] at hinc
    simp [hinc]
  · rw [Bool.not_eq_true] at hinc
    rw [hinc]
    simp only [Bool.not_false, if_true, Bool.false_eq_true, false_iff]
    rw [Bool.or_eq_false_iff] at hinc
    obtain ⟨hie, hany⟩ := hinc
    rintro ⟨h1, _⟩
    rcases h1 with h1 | ⟨p, hp, hm⟩
    · subst h1
      simp at hie
    · rw [List.any_eq_false] at hany
      exact absurd hm (by simpa using hany p hp)

/-! ## Snapshot Manager (Manager.Create / saveSnapshot / Get)

The scan+diff stage of `Create` determines which non-directory files are
chunked; its outcome, together with the outcome of opening and chunking
each file, is an input here (`CreateEnv.scanResult`).  The compressor and
encryptor are the optional per-chunk transformations exactly as installed
on the Manager. -/

structure Snapshot where
  id : String
  parent : String
  files : List (String × List String)
  compressed : Bool
  encrypted : Bool
deriving DecidableEq, Repr

structure RepoState where
  cas : CASState
  snapshots : String → Option Snapshot

/-- External inputs and fallible steps of one `Manager.Create` run:
`scanResult` is the scan outcome (per file, its relative path and the
outcome of open+chunk, i.e. the plaintext chunk bytes in emission order);
`writeErr` is the CAS object-write oracle; `saveErr` models a failing
snapshot-record write; `newId` is `generateID()`. -/
structure CreateEnv where
  scanResult : Except SErr (List (String × Except SErr (List (List Nat))))
  compress : Option (List Nat → Except SErr (List Nat))
  encrypt : Option (List Nat → Except SErr (List Nat))
  writeErr : List Nat → Option SErr
  saveErr : Option SErr
  newId : String
  parentId : String

/-- Per-chunk write transformation: Compress when enabled, then Encrypt. -/
def transformChunk (env : CreateEnv) (d : List Nat) : Except SErr (List Nat) := do
  let d1 ← match env.compress with
    | some f => f d
    | none => pure d
  match env.encrypt with
  | some f => f d1
  | none => pure d1

/-- The chunk-storage loop of `Manager.Create` for one file: each chunk is
transformed, then — unless the CAS already has the chunk's plaintext
digest — the transformed bytes are Put; the plaintext digest
(`chunk.Hash`) is appended to the file's chunk list either way.  On a
failure the function returns with the store as it stands. -/
def processChunks (H : List Nat → String) (env : CreateEnv) :
    List (List Nat) → CASState → List String →
    Except SErr (List String) × CASState
  | [], cas, hashes => (.ok hashes, cas)
  | cd :: rest, cas, hashes =>
    match transformChunk env cd with
    | .error e => (.error e, cas)
    | .ok data =>
      if CAS.has cas (H cd) then
        processChunks H env rest cas (hashes ++ [H cd])
      else
        match CAS.put H env.writeErr cas data with
        | (.ok _, cas1) => processChunks H env rest cas1 (hashes ++ [H cd])
        | (.error e, cas1) => (.error e, cas1)

/-- The per-file loop of `Manager.Create`: a failed open/chunk aborts;
otherwise the file's chunks are stored and its chunk-hash list recorded. -/
def createLoop (H : List Nat → String) (env : CreateEnv) :
    List (String × Except SErr (List (List Nat))) →
    List (String × List String) → CASState →
    Except SErr (List (String × List String)) × CASState
  | [], acc, cas => (.ok acc, cas)
  | (_, .error e) :: _, _, cas => (.error e, cas)
  | (p, .ok cds) :: rest, acc, cas =>
    match processChunks H env cds cas [] with
    | (.ok hashes, cas1) => createLoop H env rest (acc ++ [(p, hashes)]) cas1
    | (.error e, cas1) => (.error e, cas1)

/-- `Manager.saveSnapshot`: write the record at `snapshots/<id>.json`. -/
def saveSnapshot (st : RepoState) (snap : Snapshot) : RepoState :=
  { st with snapshots := fun k =>
      if k = snap.id then some snap else st.snapshots k }

/-- `Manager.Create`: scan, run every file through chunk → compress →
encrypt → Put, and only at the very end write the snapshot record; any
failure returns before `saveSnapshot` runs and rolls nothing back. -/
def createGo (H : List Nat → String) (env : CreateEnv) (st : RepoState) :
    Except SErr Snapshot × RepoState :=
  match env.scanResult with
  | .error e => (.error e, st)
  | .ok files =>
    match createLoop H env files [] st.cas with
    | (.error e, cas1) => (.error e, ⟨cas1, st.snapshots⟩)
    | (.ok entries, cas1) =>
      match env.saveErr with
      | some e => (.error e, ⟨cas1, st.snapshots⟩)
      | none =>
        let snap : Snapshot :=
          ⟨env.newId, env.parentId, entries, env.compress.isSome,
            env.encrypt.isSome⟩
        (.ok snap, saveSnapshot ⟨cas1, st.snapshots⟩ snap)

/-- `Manager.Get`: read and decode the snapshot record. -/
def managerGet (st : RepoState) (id : String) : Except SErr Snapshot :=
  match st.snapshots id with
  | some snap => .ok snap
  | none => .error (.notFound id)

theorem put_disk_mono (H : List Nat → String) (wErr : List Nat → Option SErr)
    (s : CASState) (d : List Nat) (k : String) (b : List Nat)
    (h : s.disk k = some b) : (CAS.put H wErr s d).2.disk k = some b := by
  unfold CAS.put CAS.has
  by_cases hh : (s.disk (H d)).isSome = true
  · rw [if_pos hh]
    exact h
  · rw [if_neg hh]
    rcases hw : wErr d with _ | e
    · simp only
      by_cases hk : k = H d
      · subst hk
        rw [h] at hh
        simp at hh
      · rw [if_neg hk]
        exact h
    · exact h

theorem processChunks_disk_mono (H : List Nat → String) (env : CreateEnv)
    (cds : List (List Nat)) :
    ∀ (cas : CASState) (hs : List String) (k : String) (b : List Nat),
      cas.disk k = some b → (processChunks H env cds cas hs).2.disk k = some b := by
  induction cds with
  | nil => intro cas hs k b h; exact h
  | cons cd rest ih =>
    intro cas hs k b h
    simp only [processChunks]
    rcases ht : transformChunk env cd with e | data
    · exact h
    · simp only
      by_cases hhas : CAS.has cas (H cd) = true
      · rw [if_pos hhas]
        exact ih cas _ k b h
      · rw [if_neg hhas]
        have hmono := put_disk_mono H env.writeErr cas data k b h
        rcases hput : CAS.put H env.writeErr cas data with ⟨res, cas1⟩
        rw [hput] at hmono
        cases res with
        | ok v => exact ih cas1 _ k b hmono
        | error e => exact hmono

theorem createLoop_disk_mono (H : List Nat → String) (env : CreateEnv)
    (files : List (String × Except SErr (List (List Nat)))) :
    ∀ (acc : List (String × List String)) (cas : CASState)
      (k : String) (b : List Nat),
      cas.disk k = some b → (createLoop H env files acc cas).2.disk k = some b := by
  induction files with
  | nil => intro acc cas k b h; exact h
  | cons f rest ih =>
    intro acc cas k b h
    rcases f with ⟨p, e | cds⟩
    · exact h
    · simp only [createLoop]
      have hmono := processChunks_disk_mono H env cds cas [] k b h
      rcases hpc : processChunks H env cds cas [] with ⟨res, cas1⟩
      rw [hpc] at hmono
      cases res with
      | ok hashes => exact ih _ cas1 k b hmono
      | error e => exact hmono

/-- C7: a failing `Manager.Create` writes no snapshot record — the
snapshot map and every `Get` result are untouched (and `List`/`Latest`
read only that map) — while every chunk object present in the CAS before
the call is still on disk afterwards (failures roll nothing back). -/
theorem c7_create_atomicity (H : List Nat → String) (env : CreateEnv)
    (st : RepoState) :
    ((∀ e, (createGo H env st).1 = .error e →
        (createGo H env st).2.snapshots = st.snapshots) ∧
     (∀ k b, st.cas.disk k = some b →
        (createGo H env st).2.cas.disk k = some b) ∧
     (∀ e, (createGo H env st).1 = .error e →
        ∀ id, managerGet (createGo H env st).2 id = managerGet st id)) := by
  have hsnap : ∀ e, (createGo H env st).1 = .error e →
      (createGo H env st).2.snapshots = st.snapshots := by
    intro e he
    unfold createGo at he ⊢
    rcases hs : env.scanResult with es | files
    · simp only [hs]
    · simp only [hs] at he ⊢
      rcases hcl : createLoop H env files [] st.cas with ⟨res, cas1⟩
      simp only [hcl] at he ⊢
      cases res with
      | error e2 => rfl
      | ok entries =>
        rcases hse : env.saveErr with _ | e3
        · rw [hse] at he
          simp at he
        · rfl
  refine ⟨hsnap, ?_, ?_⟩
  · intro k b h
    unfold createGo
    rcases hs : env.scanResult with es | files
    · exact h
    · have hmono := createLoop_disk_mono H env files [] st.cas k b h
      rcases hcl : createLoop H env files [] st.cas with ⟨res, cas1⟩
      rw [hcl] at hmono
      simp only [hs, hcl]
      cases res with
      | error e2 => exact hmono
      | ok entries =>
        rcases hse : env.saveErr with _ | e3
        · exact hmono
        · exact hmono
  · intro e he id
    unfold managerGet
    rw [hsnap e he]

/-- A Create environment whose compression step always fails. -/
def failingCompressEnv : CreateEnv :=
  ⟨.ok [("a", .ok [[1]])], some (fun _ => .error (.ioMsg "zstd")), none,
    fun _ => none, none, "s1", ""⟩

/-- A repository that already holds one chunk object. -/
def oneObjRepo : RepoState := ⟨oneObjStore, fun _ => none⟩

/-- Witness for C7: with a failing compressor, Create leaves the snapshot
map unchanged and the preexisting chunk object on disk. -/
theorem c7_create_atomicity_witness :
    (createGo constH failingCompressEnv oneObjRepo).2.snapshots =
      oneObjRepo.snapshots ∧
    (createGo constH failingCompressEnv oneObjRepo).2.cas.disk "h0" = some [1] :=
  ⟨(c7_create_atomicity constH failingCompressEnv oneObjRepo).1
     (.ioMsg "zstd") (by rfl),
   (c7_create_atomicity constH failingCompressEnv oneObjRepo).2.1
     "h0" [1] (by decide)⟩

/-! ## The write/read pipeline mismatch (C1, C2)

`Manager.Create` hands the *transformed* bytes to `CAS.Put`, which
addresses the object by the digest of what it receives; yet the snapshot
records `chunk.Hash`, the digest of the *plaintext* chunk, and the restore
path asks `CAS.Get` for that recorded digest. -/

/-- The per-chunk read path of `Restorer.restoreFile` and
`Restorer.RestoreToWriter`: `CAS.Get` on the recorded chunk digest, then
Decrypt when an encryptor is configured, then Decompress when a
compressor is configured. -/
def restoreChunk (H : List Nat → String)
    (decrypt : Option (List Nat → Except SErr (List Nat)))
    (decompress : Option (List Nat → Except SErr (List Nat)))
    (cas : CASState) (chunkHash : String) : Except SErr (List Nat) := do
  let data ← CAS.get H cas chunkHash
  let d1 ← match decrypt with
    | some f => f data
    | none => pure data
  match decompress with
  | some f => f d1
  | none => pure d1

/-- The Create environment of a fresh backup of one single-chunk file "f"
with plaintext P, compression enabled and encryption disabled. -/
def singleChunkEnv (compressFn : List Nat → List Nat) (P : List Nat) : CreateEnv :=
  ⟨.ok [("f", .ok [P])], some (fun d => .ok (compressFn d)), none,
    fun _ => none, none, "s1", ""⟩

/-- A fresh repository: empty CAS, no snapshot records. -/
def emptyRepo : RepoState := ⟨newCAS, fun _ => none⟩

/-- Running `Manager.Create` on a fresh repository with compression
enabled for a single-chunk file stores the object under the digest of the
compressed bytes while recording the plaintext digest in the snapshot. -/
theorem singleChunkCreate_run (H : List Nat → String)
    (compressFn : List Nat → List Nat) (P : List Nat) :
    createGo H (singleChunkEnv compressFn P) emptyRepo =
      (.ok ⟨"s1", "", [("f", [H P])], true, false⟩,
       ⟨⟨fun k => if k = H (compressFn P) then some (compressFn P) else none,
         fun k => if k = H (compressFn P) then some 1 else none⟩,
        fun k => if k = "s1"
          then some ⟨"s1", "", [("f", [H P])], true, false⟩ else none⟩) := rfl

/-- C1 fails on the code: in a fresh repository with compression enabled,
backing up a single-chunk file P succeeds and records plaintext digest
H(P), but the object was stored under H(Compress(P)); whenever compression
changes the digest, the restore read of the recorded digest fails with
NotFound (for every decompressor), so Restore cannot reproduce P. -/
theorem c1_restore_broken (H : List Nat → String)
    (compressFn : List Nat → List Nat) (P : List Nat)
    (hne : H (compressFn P) ≠ H P) :
    ((createGo H (singleChunkEnv compressFn P) emptyRepo).1 =
       .ok ⟨"s1", "", [("f", [H P])], true, false⟩ ∧
     (createGo H (singleChunkEnv compressFn P) emptyRepo).2.cas.disk
       (H (compressFn P)) = some (compressFn P) ∧
     (createGo H (singleChunkEnv compressFn P) emptyRepo).2.cas.disk
       (H P) = none ∧
     ∀ dec, restoreChunk H none dec
       (createGo H (singleChunkEnv compressFn P) emptyRepo).2.cas (H P) =
         .error (.notFound (H P))) := by
  have hne2 : H P ≠ H (compressFn P) := fun h => hne h.symm
  rw [singleChunkCreate_run H compressFn P]
  refine ⟨rfl, by simp, by simp [hne2], ?_⟩
  intro dec
  simp [restoreChunk, CAS.get, hne2]
  rfl

/-- A digest stand-in for witnesses that separates inputs by length. -/
def lenH : List Nat → String := fun l => toString l.length

/-- A compression stand-in: prepend a two-byte frame header. -/
def zstdLike : List Nat → List Nat := fun d => 40 :: 181 :: d

/-- The matching decompression stand-in. -/
def unzstdLike : List Nat → List Nat := fun d => d.drop 2

/-- Witness for C1 at the concrete plaintext [7]. -/
theorem c1_restore_broken_witness :
    ((createGo lenH (singleChunkEnv zstdLike [7]) emptyRepo).1 =
       .ok ⟨"s1", "", [("f", [lenH [7]])], true, false⟩ ∧
     (createGo lenH (singleChunkEnv zstdLike [7]) emptyRepo).2.cas.disk
       (lenH (zstdLike [7])) = some (zstdLike [7]) ∧
     (createGo lenH (singleChunkEnv zstdLike [7]) emptyRepo).2.cas.disk
       (lenH [7]) = none ∧
     ∀ dec, restoreChunk lenH none dec
       (createGo lenH (singleChunkEnv zstdLike [7]) emptyRepo).2.cas
       (lenH [7]) = .error (.notFound (lenH [7]))) :=
  c1_restore_broken lenH zstdLike [7] (by decide)

/-- C2 fails on the code: the stored object's on-disk address is the digest
of the transformed bytes; decoding the stored bytes back to plaintext
yields digest H(P), which equals the recorded chunk digest but differs
from the address whenever compression changes the bytes. -/
theorem c2_address_mismatch (H : List Nat → String)
    (compressFn decompressFn : List Nat → List Nat) (P : List Nat)
    (hne : H (compressFn P) ≠ H P)
    (hdec : decompressFn (compressFn P) = P) :
    ((createGo H (singleChunkEnv compressFn P) emptyRepo).1 =
       .ok ⟨"s1", "", [("f", [H P])], true, false⟩ ∧
     (createGo H (singleChunkEnv compressFn P) emptyRepo).2.cas.disk
       (H (compressFn P)) = some (compressFn P) ∧
     H (decompressFn (compressFn P)) = H P ∧
     H (decompressFn (compressFn P)) ≠ H (compressFn P)) := by
  rw [singleChunkCreate_run H compressFn P]
  refine ⟨rfl, by simp, by rw [hdec], ?_⟩
  rw [hdec]
  exact fun h => hne h.symm

/-- Witness for C2 at the concrete plaintext [7]. -/
theorem c2_address_mismatch_witness :
    ((createGo lenH (singleChunkEnv zstdLike [7]) emptyRepo).1 =
       .ok ⟨"s1", "", [("f", [lenH [7]])], true, false⟩ ∧
     (createGo lenH (singleChunkEnv zstdLike [7]) emptyRepo).2.cas.disk
       (lenH (zstdLike [7])) = some (zstdLike [7]) ∧
     lenH (unzstdLike (zstdLike [7])) = lenH [7] ∧
     lenH (unzstdLike (zstdLike [7])) ≠ lenH (zstdLike [7])) :=
  c2_address_mismatch lenH zstdLike unzstdLike [7] (by decide) (by decide)

end SnapSync
